import Mathlib

/-!
Verification of the physicanova particle-simulation modules against their
natural-language specification.  Each JavaScript module is shallowly embedded:
pure computations become Lean functions over `ℝ`, `ℤ` and `List`;
`Math.random()` draws become explicit real-valued arguments; JavaScript
divisions and square roots that can produce non-finite values (`Infinity`,
`NaN`) are modelled with `Option`-valued operations (`none` = non-finite).
-/

noncomputable section

/-- JavaScript division, tracking non-finiteness: dividing a finite numerator
by zero yields `Infinity` or `NaN` in JS, modelled here as `none`. -/
def jsDiv (a b : ℝ) : Option ℝ :=
  if b = 0 then none else some (a / b)

/-- JavaScript `Math.sqrt`, which yields `NaN` on negative input,
modelled as `none`. -/
def jsSqrt (a : ℝ) : Option ℝ :=
  if a < 0 then none else some (Real.sqrt a)

set_option linter.unusedVariables false

namespace Compton

/-- Source constant `HC = 1240` (keV·pm), from the Compton module. -/
def HC : ℝ := 1240

/-- Source constant `LAMBDA_C = 2.43` (pm), the Compton wavelength constant. -/
def LAMBDA_C : ℝ := 2.43

/-- Degrees to radians, as in the source function `toRad`. -/
def toRad (deg : ℝ) : ℝ := deg * Real.pi / 180

/-- The readout values computed by the Compton module's `updatePhysics`. -/
structure Readout where
  shift : ℝ
  lambdaPrime : ℝ
  eInc : ℝ
  eScat : ℝ
  kElectron : ℝ
  phi : ℝ

/-- Shallow embedding of `updatePhysics` from the Compton module
(`michelson_morley.js`, second document): computes the wavelength shift,
scattered wavelength, photon energies, electron kinetic energy and the
recoil angle from the state `(lambda, theta)`. -/
def updatePhysics (lambda theta : ℝ) : Readout :=
  let thetaRad := toRad theta
  let shift := LAMBDA_C * (1 - Real.cos thetaRad)
  let lambdaPrime := lambda + shift
  let eInc := HC / lambda
  let eScat := HC / lambdaPrime
  let kE := eInc - eScat
  let alpha := eInc / 511
  let tanTheta2 := Real.tan (thetaRad / 2)
  let phi :=
    if theta = 0 then 0
    else if theta = 180 then 0
    else Real.arctan (1 / ((1 + alpha) * tanTheta2))
  ⟨shift, lambdaPrime, eInc, eScat, kE, phi⟩

end Compton

namespace Photoelectric

/-- Source constant `HC = 1240` (eV·nm), from the photoelectric module. -/
def HC : ℝ := 1240

/-- Source constant `SCALE_SPEED = 2`. -/
def SCALE_SPEED : ℝ := 2

/-- Source constant `METALS.copper.phi = 4.70` (eV), the copper work function. -/
def copper_phi : ℝ := 4.70

/-- An entry of `state.electrons` in the photoelectric module. -/
structure Electron where
  x : ℝ
  y : ℝ
  vx : ℝ
  vy : ℝ
  ke : ℝ
  dead : Bool

/-- Shallow embedding of `spawnElectron(x, y, normalAngle)`.  The globals
`state.lambda` and `state.workFunction` become the parameters `lambda` and
`workFunction`; the two `Math.random()` draws become `r1` (kinetic-energy
fraction) and `r2` (angular spread); `state.electrons` is threaded as the
`electrons` list, pushed at the tail. -/
def spawnElectron (lambda workFunction : ℝ) (x y normalAngle r1 r2 : ℝ)
    (electrons : List Electron) : List Electron :=
  let photonE := HC / lambda
  let workFn := workFunction
  if photonE ≤ workFn then electrons
  else
    let maxKE := photonE - workFn
    let ke := maxKE * (0.9 + r1 * 0.1)
    let speed := Real.sqrt ke * SCALE_SPEED
    let spread := (r2 - 0.5) * 1.0
    let angle := normalAngle + spread
    electrons ++ [⟨x, y, Real.cos angle * speed, Real.sin angle * speed, ke, false⟩]

/-- One spawn-attempt input: the `(x, y, normalAngle)` geometry of the attempt
and the two random draws used inside `spawnElectron`. -/
structure SpawnInput where
  x : ℝ
  y : ℝ
  normalAngle : ℝ
  r1 : ℝ
  r2 : ℝ

/-- Iterating `spawnElectron` over any sequence of spawn attempts (covering any
number of simulation ticks with fixed wavelength and work function). -/
def spawnMany (lambda workFunction : ℝ) (attempts : List SpawnInput)
    (electrons : List Electron) : List Electron :=
  attempts.foldl
    (fun es a => spawnElectron lambda workFunction a.x a.y a.normalAngle a.r1 a.r2 es)
    electrons

/-- Embedding of `recordHit(timestamp)`: pushes the timestamp onto the hit history. -/
def recordHit (timestamp : ℝ) (hitHistory : List ℝ) : List ℝ :=
  hitHistory ++ [timestamp]

/-- Shallow embedding of `calculateRealCurrent(timestamp)`: prunes
`state.hitHistory` to the 500 ms window, computes the instantaneous rate and
the exponentially smoothed ammeter value.  Returns the new
`(hitHistory, ammeterCurrent)` pair. -/
def calculateRealCurrent (timestamp : ℝ) (hitHistory : List ℝ)
    (ammeterCurrent : ℝ) : List ℝ × ℝ :=
  let windowSize : ℝ := 500
  let hist := hitHistory.filter (fun t => decide (timestamp - t < windowSize))
  let count := hist.length
  let scale : ℝ := 0.2
  let current := (count : ℝ) * scale * (1000 / windowSize)
  (hist, ammeterCurrent * 0.9 + current * 0.1)

/-- Iterating the aggregation step over a sequence of frame timestamps. -/
def aggregatorSteps (timestamps : List ℝ) (hist : List ℝ) (am : ℝ) :
    List ℝ × ℝ :=
  timestamps.foldl (fun s ts => calculateRealCurrent ts s.1 s.2) (hist, am)

/-- The per-frame spawn rate `state.intensity * 0.03` from the spawning
block in `loop`. -/
def spawnRate (intensity : ℝ) : ℝ := intensity * 0.03

/-- The guaranteed spawns per frame, `Math.floor(spawnRate)`. -/
def guaranteedCount (intensity : ℝ) : ℤ := ⌊spawnRate intensity⌋

/-- The number of spawn attempts performed by one frame of `loop` for a given
intensity, with `r` the `Math.random()` draw deciding the probabilistic extra
spawn (`if (Math.random() < remainder)`).  Outside `state.intensity > 0`
the whole block is skipped. -/
def spawnAttempts (intensity r : ℝ) : ℤ :=
  if 0 < intensity then
    guaranteedCount intensity
      + (if r < spawnRate intensity - (guaranteedCount intensity : ℝ) then 1 else 0)
  else 0

/-- Per-electron part of `updateElectrons(timestamp)`: advances one electron,
applies the sequential dead-marking checks (anode hit, cathode collision,
leak past the anode, tube top/bottom, canvas bounds) and reports whether this
electron produced a detector hit (`recordHit`).  `W` is `canvas.width`. -/
def updateElectron (voltage W : ℝ) (el : Electron) : Electron × Bool :=
  let forceFactor := voltage * 0.05
  let tubeTop : ℝ := 250 - 120
  let tubeBottom : ℝ := 250 + 120
  let vx1 := el.vx - forceFactor
  let x1 := el.x + vx1
  let y1 := el.y + el.vy
  let hit := decide (x1 ≤ 300 + 10) && decide (300 ≤ x1)
      && decide (|y1 - 250| < 200 / 2) && !el.dead
  let dead1 := el.dead || hit
  let dist := Real.sqrt ((x1 - 350) ^ 2 + (y1 - 250) ^ 2)
  let dead2 := dead1 || (decide (dist > 180) && decide (x1 > 350))
  let dead3 := dead2 || decide (x1 < 300)
  let dead4 := dead3 || decide (y1 < tubeTop) || decide (y1 > tubeBottom)
  let dead5 := dead4 || decide (x1 < 0) || decide (x1 > W)
  ({ el with x := x1, y := y1, vx := vx1, dead := dead5 }, hit)

end Photoelectric

namespace Millikan

/-- Source constant `CONSTANTS.g = 9.80` (m/s²). -/
def g : ℝ := 9.80

/-- Source constant `CONSTANTS.rho_oil = 875` (kg/m³). -/
def rho_oil : ℝ := 875

/-- Source constant `CONSTANTS.rho_air = 1.225` (kg/m³). -/
def rho_air : ℝ := 1.225

/-- Source constant `CONSTANTS.viscosity = 1.81e-5` (Pa·s). -/
def viscosity : ℝ := 1.81e-5

/-- Source constant `CONSTANTS.e = 1.602e-19` (C), the elementary charge. -/
def e : ℝ := 1.602e-19

/-- Source constant `CONSTANTS.plateDistance = 0.005` (m). -/
def plateDistance : ℝ := 0.005

/-- Source constant `CONSTANTS.scale = 100000` (px/m). -/
def scale : ℝ := 100000

/-- An oil drop (`class OilDrop`); the display color is rendering-only and
omitted. -/
structure OilDrop where
  radius : ℝ
  x : ℝ
  y : ℝ
  vx : ℝ
  vy : ℝ
  q : ℝ

/-- The `OilDrop` constructor, with the five `Math.random()` draws explicit
(`rr` radius, `rx`/`ry` position, `rvx` initial horizontal velocity, `rq`
charge sign) and the canvas extent `width`/`height` as parameters. -/
def OilDrop.spawn (width height rr rx ry rvx rq : ℝ) : OilDrop :=
  let radius := (0.5 + rr * 0.6) * 1e-6
  let x := (rx * 0.8 + 0.1) * (width / scale)
  let y := (ry * 0.2) * (height / scale)
  let vx := (rvx - 0.5) * 1e-5
  let n : ℝ := if rq < 0.5 then -1 else 1
  ⟨radius, x, y, vx, 0, n * e⟩

/-- Shallow embedding of `OilDrop.update(dt)`.  The global `voltage` and the
two `Math.random()` jitter draws `r1`, `r2` are explicit parameters.  The
three divisions of the source (`F_driving_y / drag_coeff`,
`F_driving_x / drag_coeff` and the `1e-6 / this.radius` factor of the jitter
magnitude) go through `jsDiv`, so a zero denominator yields `none`
(non-finite) exactly where JavaScript would produce `Infinity`/`NaN`. -/
def OilDrop.update (d : OilDrop) (voltage dt r1 r2 : ℝ) : Option OilDrop :=
  let volume := (4 / 3) * Real.pi * d.radius ^ 3
  let mass := volume * rho_oil
  let Fg := mass * g
  let Fb := volume * rho_air * g
  let E := voltage / plateDistance
  let Fe := d.q * E
  let Fd_x := -6 * Real.pi * viscosity * d.radius * d.vx
  let Fd_y := -6 * Real.pi * viscosity * d.radius * d.vy
  let Fnet_y := Fg - Fb + Fe + Fd_y
  let Fnet_x := Fd_x
  let F_driving_y := Fg - Fb + Fe
  let F_driving_x : ℝ := 0
  let drag_coeff := 6 * Real.pi * viscosity * d.radius
  match jsDiv F_driving_y drag_coeff, jsDiv F_driving_x drag_coeff,
      jsDiv 1e-6 d.radius with
  | some vy0, some vx0, some invR =>
      let jitterMagnitude := invR * 2e-6
      let vx1 := vx0 + (r1 - 0.5) * jitterMagnitude
      let vy1 := vy0 + (r2 - 0.5) * jitterMagnitude
      some { d with vx := vx1, vy := vy1,
                    x := d.x + vx1 * dt, y := d.y + vy1 * dt }
  | _, _, _ => none

/-- Shallow embedding of `updateVoltageFromInput`.  The `parseInt` result is
`none` for `NaN` (non-numeric input, replaced by 0) and `some v` otherwise;
the two clamp tests are applied in source order.  The returned value is the
stored `voltage`. -/
def updateVoltageFromInput (input : Option ℤ) : ℤ :=
  let val := match input with
    | none => 0
    | some v => v
  let val := if val > 2000 then 2000 else val
  let val := if val < -2000 then -2000 else val
  val

end Millikan

namespace FrankHertz

/-- Source constant `EXCITATION_ENERGY = 4.9` (eV, mercury). -/
def EXCITATION_ENERGY : ℝ := 4.9

/-- Source constant `CONTACT_POTENTIAL = 2.0` (V). -/
def CONTACT_POTENTIAL : ℝ := 2.0

/-- The pair returned by `getTemperatureFactor`. -/
structure TempFactor where
  dipStrength : ℝ
  transmission : ℝ

/-- Shallow embedding of `getTemperatureFactor(t)`. -/
def getTemperatureFactor (t : ℝ) : TempFactor :=
  if t < 140 then ⟨0, 1⟩
  else if 140 ≤ t ∧ t ≤ 200 then
    let dist := |t - 180|
    ⟨Real.exp (-(dist * dist) / (20 * 20)), 0.8⟩
  else ⟨0.5, Real.exp (-(t - 200) / 20) * 0.5⟩

/-- The dip-summation loop of `calculateCurrent`
(`for (let k = 1; k < 15; k++) { ... if (v < dropPos - 3) break; modulation += exp(...) }`),
written as a recursion in the loop index `k`:
`modulationFrom v 1` is the final value of `modulation`. -/
def modulationFrom (v : ℝ) (k : ℕ) : ℝ :=
  if h : k < 15 then
    let dropPos := (k : ℝ) * EXCITATION_ENERGY + CONTACT_POTENTIAL
    if v < dropPos - 3 then 0
    else
      let diff := v - dropPos
      let width : ℝ := 1.5
      Real.exp (-(diff * diff) / width) + modulationFrom v (k + 1)
  else 0
termination_by 15 - k

/-- The Gaussian summand that the dip loop adds at loop index `j`
(`Math.exp(-(diff * diff) / width)` with `width = 1.5` and
`diff = v - (j * EXCITATION_ENERGY + CONTACT_POTENTIAL)`); named here so the
bounding lemmas can speak about individual loop iterations. -/
def gaussTerm (v : ℝ) (j : ℕ) : ℝ :=
  Real.exp (-((v - ((j : ℝ) * EXCITATION_ENERGY + CONTACT_POTENTIAL))
      * (v - ((j : ℝ) * EXCITATION_ENERGY + CONTACT_POTENTIAL))) / 1.5)

/-- Shallow embedding of `calculateCurrent(v)`; the global
`state.temperature` is the explicit first parameter (the retarding voltage
`state.vRet` is not read by this function). -/
def calculateCurrent (temperature v : ℝ) : ℝ :=
  if v < 0 then 0
  else
    let tf := getTemperatureFactor temperature
    let baseCurrent := v ^ (1.5 : ℝ) * 0.2 * tf.transmission
    let n := ⌊(v + CONTACT_POTENTIAL) / EXCITATION_ENERGY⌋
    let eRem := (v + CONTACT_POTENTIAL) - (n : ℝ) * EXCITATION_ENERGY
    let phase := (v + CONTACT_POTENTIAL) / EXCITATION_ENERGY
    let cyclePos := phase - (⌊phase⌋ : ℝ)
    let modulation := modulationFrom v 1
    let dipFactor := max 0.1 (1 - 0.8 * tf.dipStrength * modulation)
    baseCurrent * dipFactor

/-- A Franck–Hertz tube electron (`class Electron`); the display color is
rendering-only and omitted. -/
structure Electron where
  x : ℝ
  y : ℝ
  vx : ℝ
  energy : ℝ
  active : Bool

/-- Embedding of `Electron.reset()` with the canvas height `H` and the two
`Math.random()` draws explicit. -/
def Electron.reset (H r1 r2 : ℝ) : Electron :=
  ⟨40, 50 + r1 * (H - 100), 0.5 + r2 * 0.5, 0, true⟩

/-- Shallow embedding of `Electron.update()`.  `W` is `tubeCanvas.width`;
the globals `state.vAcc`, `state.vRet`, `state.temperature` and the collision
`Math.random()` draw `r` are explicit.  The division by the
cathode–grid distance and the `Math.sqrt(this.energy)` speed update go
through `jsDiv`/`jsSqrt`, so a degenerate geometry or a negative energy
yields `none` (non-finite) exactly where JavaScript would produce
`Infinity`/`NaN`.  The push onto the visual `state.collisions` glow list is
rendering-only and omitted. -/
def Electron.update (el : Electron) (W vAcc vRet temperature r : ℝ) :
    Option Electron :=
  if el.active = false then some el else
  let cathodeX : ℝ := 40
  let gridX := W - 60
  let anodeX := W - 20
  let dipStrength := (getTemperatureFactor temperature).dipStrength
  if el.x < gridX then
    match jsDiv vAcc (gridX - cathodeX) with
    | none => none
    | some E_field =>
      let energy1 := el.energy + E_field * el.vx
      let x1 := el.x + el.vx
      match jsSqrt energy1 with
      | none => none
      | some s =>
        let vx1 := 1 + s * 0.5
        if energy1 ≥ EXCITATION_ENERGY ∧ dipStrength > 0.01
            ∧ r < 0.2 * dipStrength then
          some { el with energy := energy1 - EXCITATION_ENERGY,
                         x := x1, vx := 0.5 }
        else
          some { el with energy := energy1, x := x1, vx := vx1 }
  else if el.x < anodeX then
    match jsDiv vRet (anodeX - gridX) with
    | none => none
    | some E_field =>
      let energy1 := el.energy - E_field * el.vx
      let x1 := el.x + el.vx
      if energy1 ≤ 0 then
        some { el with energy := energy1, x := x1, active := false }
      else
        some { el with energy := energy1, x := x1 }
  else
    some { el with active := false }

end FrankHertz

/-! ## Auxiliary lemmas -/

theorem sqrt2_bounds : 1.41421 < Real.sqrt 2 ∧ Real.sqrt 2 < 1.41422 := by
  have hs : Real.sqrt 2 ^ 2 = 2 := Real.sq_sqrt (by norm_num)
  have hnn : 0 ≤ Real.sqrt 2 := Real.sqrt_nonneg 2
  constructor <;> nlinarith

namespace Millikan

/-- For a drop of positive radius, `OilDrop.update` always succeeds and its
result is the closed-form terminal-velocity update. -/
theorem OilDrop.update_of_pos_radius (d : OilDrop) (voltage dt r1 r2 : ℝ)
    (hr : 0 < d.radius) :
    OilDrop.update d voltage dt r1 r2 =
      some { d with
        vx := 0 + (r1 - 0.5) * (1e-6 / d.radius * 2e-6),
        vy := ((4 / 3) * Real.pi * d.radius ^ 3 * rho_oil * g
                - (4 / 3) * Real.pi * d.radius ^ 3 * rho_air * g
                + d.q * (voltage / plateDistance))
              / (6 * Real.pi * viscosity * d.radius)
            + (r2 - 0.5) * (1e-6 / d.radius * 2e-6),
        x := d.x + (0 + (r1 - 0.5) * (1e-6 / d.radius * 2e-6)) * dt,
        y := d.y + (((4 / 3) * Real.pi * d.radius ^ 3 * rho_oil * g
                - (4 / 3) * Real.pi * d.radius ^ 3 * rho_air * g
                + d.q * (voltage / plateDistance))
              / (6 * Real.pi * viscosity * d.radius)
            + (r2 - 0.5) * (1e-6 / d.radius * 2e-6)) * dt } := by
  have hdrag : 6 * Real.pi * viscosity * d.radius ≠ 0 := by
    have : 0 < 6 * Real.pi * viscosity * d.radius := by
      have : (0:ℝ) < viscosity := by norm_num [viscosity]
      positivity
    exact ne_of_gt this
  have hrne : d.radius ≠ 0 := ne_of_gt hr
  simp only [OilDrop.update, jsDiv, if_neg hdrag, if_neg hrne]
  congr 1
  simp only [OilDrop.mk.injEq]
  refine ⟨?_, ?_, ?_, ?_, ?_, ?_⟩ <;> first | trivial | ring

end Millikan

namespace FrankHertz

/-- Under the geometry and parameter invariants maintained by the module
(canvas wider than 100 px, nonnegative accelerating voltage, nonnegative
energy and forward speed), `Electron.update` always succeeds, and the
updated electron is either inactive or still has nonnegative energy, with
a nonnegative forward speed. -/
theorem electron_update_finite (el : Electron) (W vAcc vRet temperature r : ℝ)
    (hW : 100 < W) (hvA : 0 ≤ vAcc) (hE : 0 ≤ el.energy) (hvx : 0 ≤ el.vx) :
    ∃ el', Electron.update el W vAcc vRet temperature r = some el'
      ∧ (0 ≤ el'.energy ∨ el'.active = false) ∧ 0 ≤ el'.vx := by
  have hden : W - 60 - 40 ≠ 0 := by intro h; nlinarith
  have hden2 : W - 20 - (W - 60) ≠ 0 := by intro h; nlinarith
  simp only [Electron.update, jsDiv, if_neg hden, if_neg hden2]
  by_cases hact : el.active = false
  · rw [if_pos hact]
    exact ⟨el, rfl, Or.inr hact, hvx⟩
  · rw [if_neg hact]
    by_cases hx1 : el.x < W - 60
    · rw [if_pos hx1]
      have hEf : 0 ≤ vAcc / (W - 60 - 40) := by
        apply div_nonneg hvA; nlinarith
      have hE1 : 0 ≤ el.energy + vAcc / (W - 60 - 40) * el.vx := by
        have := mul_nonneg hEf hvx
        linarith
      rw [jsSqrt, if_neg (not_lt.mpr hE1)]
      dsimp only
      by_cases hcol : el.energy + vAcc / (W - 60 - 40) * el.vx ≥ EXCITATION_ENERGY
          ∧ (getTemperatureFactor temperature).dipStrength > 0.01
          ∧ r < 0.2 * (getTemperatureFactor temperature).dipStrength
      · rw [if_pos hcol]
        refine ⟨_, rfl, Or.inl ?_, by norm_num⟩
        have := hcol.1
        simp only [EXCITATION_ENERGY] at this ⊢
        linarith
      · rw [if_neg hcol]
        refine ⟨_, rfl, Or.inl hE1, ?_⟩
        have := Real.sqrt_nonneg (el.energy + vAcc / (W - 60 - 40) * el.vx)
        nlinarith
    · rw [if_neg hx1]
      by_cases hx2 : el.x < W - 20
      · rw [if_pos hx2]
        by_cases hstop : el.energy - vRet / (W - 20 - (W - 60)) * el.vx ≤ 0
        · rw [if_pos hstop]
          exact ⟨_, rfl, Or.inr rfl, hvx⟩
        · rw [if_neg hstop]
          exact ⟨_, rfl, Or.inl (le_of_lt (lt_of_not_le hstop)), hvx⟩
      · rw [if_neg hx2]
        exact ⟨_, rfl, Or.inr rfl, hvx⟩

/-- The dip loop accumulator is nonnegative from any starting index
(auxiliary fuel induction). -/
theorem modFrom_nonneg_aux (v : ℝ) :
    ∀ m k, 15 - k ≤ m → 0 ≤ modulationFrom v k := by
  intro m
  induction m with
  | zero =>
      intro k hk
      rw [modulationFrom, dif_neg (by omega : ¬ k < 15)]
  | succ m ih =>
      intro k hk
      by_cases h15 : k < 15
      · rw [modulationFrom, dif_pos h15]
        dsimp only
        split_ifs with hbr
        · exact le_refl 0
        · have h1 := ih (k + 1) (by omega)
          have h2 := Real.exp_pos
            (-((v - ((k : ℝ) * EXCITATION_ENERGY + CONTACT_POTENTIAL))
                * (v - ((k : ℝ) * EXCITATION_ENERGY + CONTACT_POTENTIAL))) / 1.5)
          linarith
      · rw [modulationFrom, dif_neg h15]

/-- The dip loop accumulator is nonnegative. -/
theorem modFrom_nonneg (v : ℝ) (k : ℕ) : 0 ≤ modulationFrom v k :=
  modFrom_nonneg_aux v 15 k (by omega)

/-- The loop value from index `k` is at most the full sum of its Gaussian
summands over indices `k ≤ j < 15` (the early break only drops nonnegative
terms); auxiliary fuel induction. -/
theorem modFrom_le_sum_aux (v : ℝ) :
    ∀ m k, 15 - k ≤ m →
      modulationFrom v k ≤ ∑ j ∈ Finset.Ico k 15, gaussTerm v j := by
  intro m
  induction m with
  | zero =>
      intro k hk
      rw [modulationFrom, dif_neg (by omega : ¬ k < 15)]
      exact Finset.sum_nonneg fun j _ => (Real.exp_pos _).le
  | succ m ih =>
      intro k hk
      by_cases h15 : k < 15
      · rw [modulationFrom, dif_pos h15]
        dsimp only
        rw [Finset.sum_eq_sum_Ico_succ_bot h15]
        split_ifs with hbr
        · show (0:ℝ) ≤ gaussTerm v k + ∑ j ∈ Finset.Ico (k + 1) 15, gaussTerm v j
          exact add_nonneg (Real.exp_pos _).le
            (Finset.sum_nonneg fun j _ => (Real.exp_pos _).le)
        · have h1 := ih (k + 1) (by omega)
          show gaussTerm v k + modulationFrom v (k + 1)
              ≤ gaussTerm v k + ∑ j ∈ Finset.Ico (k + 1) 15, gaussTerm v j
          exact add_le_add_left h1 _
      · rw [modulationFrom, dif_neg h15]
        exact Finset.sum_nonneg fun j _ => (Real.exp_pos _).le

/-- The dip-loop value is at most the sum of all its Gaussian summands. -/
theorem modFrom_le_sum (v : ℝ) (k : ℕ) :
    modulationFrom v k ≤ ∑ j ∈ Finset.Ico k 15, gaussTerm v j :=
  modFrom_le_sum_aux v 15 k (by omega)

/-- At the dip voltage `n * 4.9 + 2` the loop iteration `k = n` contributes
`exp 0 = 1`, so the accumulator from index `n` is at least 1. -/
theorem modFrom_at_dip_index (n : ℕ) (h1 : 1 ≤ n) (h2 : n ≤ 14) :
    1 ≤ modulationFrom ((n : ℝ) * 4.9 + 2) n := by
  rw [modulationFrom, dif_pos (by omega : n < 15)]
  dsimp only
  rw [if_neg (by
    simp only [EXCITATION_ENERGY, CONTACT_POTENTIAL]
    intro h
    nlinarith)]
  have hz : ((n : ℝ) * 4.9 + 2 - ((n : ℝ) * EXCITATION_ENERGY + CONTACT_POTENTIAL)) = 0 := by
    simp only [EXCITATION_ENERGY, CONTACT_POTENTIAL]
    ring
  rw [hz]
  have : -(((0:ℝ)) * 0) / 1.5 = 0 := by norm_num
  rw [this, Real.exp_zero]
  have := modFrom_nonneg ((n : ℝ) * 4.9 + 2) (n + 1)
  linarith

/-- From any index `k ≤ n` the loop does not break before reaching the dip
iteration `k = n`, so the accumulator stays at least 1 (fuel induction). -/
theorem modFrom_ge_one_aux (n : ℕ) (h1 : 1 ≤ n) (h2 : n ≤ 14) :
    ∀ m k, 1 ≤ k → k ≤ n → n ≤ k + m →
      1 ≤ modulationFrom ((n : ℝ) * 4.9 + 2) k := by
  intro m
  induction m with
  | zero =>
      intro k hk1 hkn hnk
      have : k = n := by omega
      subst this
      exact modFrom_at_dip_index k hk1 h2
  | succ m ih =>
      intro k hk1 hkn hnk
      by_cases heq : k = n
      · subst heq
        exact modFrom_at_dip_index k hk1 h2
      · have hkn' : k < n := by omega
        rw [modulationFrom, dif_pos (by omega : k < 15)]
        dsimp only
        rw [if_neg (by
          simp only [EXCITATION_ENERGY, CONTACT_POTENTIAL]
          intro h
          have : (k : ℝ) ≤ (n : ℝ) := by exact_mod_cast hkn
          nlinarith)]
        have hrec := ih (k + 1) (by omega) (by omega) (by omega)
        have hexp := (Real.exp_pos (-(((n : ℝ) * 4.9 + 2
            - ((k : ℝ) * EXCITATION_ENERGY + CONTACT_POTENTIAL))
            * ((n : ℝ) * 4.9 + 2 - ((k : ℝ) * EXCITATION_ENERGY
            + CONTACT_POTENTIAL))) / 1.5)).le
        linarith

/-- At the dip voltage `n * 4.9 + 2` with `1 ≤ n ≤ 14`, the dip-loop value is
at least 1. -/
theorem modFrom_ge_one (n : ℕ) (h1 : 1 ≤ n) (h2 : n ≤ 14) :
    1 ≤ modulationFrom ((n : ℝ) * 4.9 + 2) 1 :=
  modFrom_ge_one_aux n h1 h2 n 1 (le_refl 1) h1 (by omega)

/-- Numeric bound used for the far Gaussian summands. -/
theorem exp_neg_ten_le : Real.exp (-10) ≤ 1 / 1024 := by
  have h2 : (2 : ℝ) ≤ Real.exp 1 := by
    have := Real.add_one_le_exp (1 : ℝ)
    linarith
  have hpow : Real.exp (-10 : ℝ) = Real.exp (-1) ^ 10 := by
    rw [← Real.exp_nat_mul]
    norm_num
  have hinv : Real.exp (-1 : ℝ) ≤ 1 / 2 := by
    rw [Real.exp_neg]
    rw [inv_le_comm₀ (Real.exp_pos 1) (by norm_num)] at *
    · linarith
  rw [hpow]
  calc Real.exp (-1 : ℝ) ^ 10 ≤ (1 / 2 : ℝ) ^ 10 := by
        exact pow_le_pow_left₀ (Real.exp_pos (-1)).le hinv 10
    _ = 1 / 1024 := by norm_num

/-- A Gaussian summand whose squared distance from its dip centre is at
least 15 is at most `1/1024`. -/
theorem gaussTerm_le_far (w : ℝ) (j : ℕ)
    (h : 15 ≤ (w - ((j : ℝ) * EXCITATION_ENERGY + CONTACT_POTENTIAL))
        * (w - ((j : ℝ) * EXCITATION_ENERGY + CONTACT_POTENTIAL))) :
    gaussTerm w j ≤ 1 / 1024 := by
  unfold gaussTerm
  calc Real.exp (-((w - ((j : ℝ) * EXCITATION_ENERGY + CONTACT_POTENTIAL))
          * (w - ((j : ℝ) * EXCITATION_ENERGY + CONTACT_POTENTIAL))) / 1.5)
      ≤ Real.exp (-10) := by
        apply Real.exp_le_exp.mpr
        rw [show (1.5:ℝ) = 3 / 2 by norm_num]
        linarith
    _ ≤ 1 / 1024 := exp_neg_ten_le

/-- A Gaussian summand at squared distance exactly 1 from its dip centre is
at most `3/5`. -/
theorem gaussTerm_le_near (w : ℝ) (j : ℕ)
    (h : (w - ((j : ℝ) * EXCITATION_ENERGY + CONTACT_POTENTIAL))
        * (w - ((j : ℝ) * EXCITATION_ENERGY + CONTACT_POTENTIAL)) = 1) :
    gaussTerm w j ≤ 3 / 5 := by
  unfold gaussTerm
  rw [h]
  have h53 : (5 / 3 : ℝ) ≤ Real.exp (2 / 3) := by
    have := Real.add_one_le_exp (2 / 3 : ℝ)
    linarith
  have : (-(1 : ℝ) / 1.5) = -(2 / 3) := by norm_num
  rw [this, Real.exp_neg]
  rw [inv_le_comm₀ (Real.exp_pos _) (by norm_num)]
  calc (3 / 5 : ℝ)⁻¹ = 5 / 3 := by norm_num
    _ ≤ Real.exp (2 / 3) := h53

/-- Splitting the Gaussian sum at the one near index bounds it by
`3/5 + 13 * (1/1024)`. -/
theorem sum_gauss_le (w : ℝ) (n : ℕ) (hn : n ∈ Finset.Ico 1 15)
    (hnear : gaussTerm w n ≤ 3 / 5)
    (hfar : ∀ j ∈ Finset.Ico 1 15, j ≠ n → gaussTerm w j ≤ 1 / 1024) :
    ∑ j ∈ Finset.Ico 1 15, gaussTerm w j ≤ 3 / 5 + 13 * (1 / 1024) := by
  rw [← Finset.add_sum_erase _ _ hn]
  have hcard : ((Finset.Ico 1 15).erase n).card = 13 := by
    rw [Finset.card_erase_of_mem hn, Nat.card_Ico]
  have hsum : ∑ j ∈ (Finset.Ico 1 15).erase n, gaussTerm w j
      ≤ ((Finset.Ico 1 15).erase n).card • (1 / 1024 : ℝ) := by
    apply Finset.sum_le_card_nsmul
    intro j hj
    exact hfar j (Finset.mem_of_mem_erase hj) (Finset.ne_of_mem_erase hj)
  rw [hcard] at hsum
  have : (13 : ℕ) • (1 / 1024 : ℝ) = 13 * (1 / 1024) := by
    rw [nsmul_eq_mul]; norm_num
  rw [this] at hsum
  linarith

/-- The temperature factor at the optimal temperature 180 °C: full dip
strength, 0.8 transmission. -/
theorem getTemperatureFactor_180 : getTemperatureFactor 180 = ⟨1, 0.8⟩ := by
  unfold getTemperatureFactor
  rw [if_neg (by norm_num : ¬ (180:ℝ) < 140),
      if_pos (by norm_num : (140:ℝ) ≤ 180 ∧ (180:ℝ) ≤ 200)]
  dsimp only
  congr 1
  rw [show (180:ℝ) - 180 = 0 by norm_num, abs_zero]
  rw [show (-((0:ℝ) * 0) / (20 * 20)) = 0 by norm_num, Real.exp_zero]

/-- Closed form of `calculateCurrent` at 180 °C for nonnegative voltage. -/
theorem calculateCurrent_180 (v : ℝ) (hv : 0 ≤ v) :
    calculateCurrent 180 v
      = v ^ (1.5 : ℝ) * 0.2 * 0.8
          * max 0.1 (1 - 0.8 * 1 * modulationFrom v 1) := by
  unfold calculateCurrent
  rw [if_neg (not_lt.mpr hv), getTemperatureFactor_180]

/-- At one volt to either side of a dip voltage (with dip order at most 14),
the dip-loop value is bounded by `3/5 + 13 * (1/1024)`. -/
theorem modFrom_near_le (n : ℕ) (h1 : 1 ≤ n) (h2 : n ≤ 14) (d : ℝ)
    (hd : d = 1 ∨ d = 3) :
    modulationFrom ((n : ℝ) * 4.9 + d) 1 ≤ 3 / 5 + 13 * (1 / 1024) := by
  apply le_trans (modFrom_le_sum _ 1)
  apply sum_gauss_le _ n (by simp only [Finset.mem_Ico]; omega)
  · apply gaussTerm_le_near
    simp only [EXCITATION_ENERGY, CONTACT_POTENTIAL]
    rcases hd with h | h <;> subst h <;> ring_nf
  · intro j hj hjn
    apply gaussTerm_le_far
    simp only [EXCITATION_ENERGY, CONTACT_POTENTIAL]
    have hj14 : j < 15 := (Finset.mem_Ico.mp hj).2
    rcases lt_or_gt_of_ne hjn with hlt | hgt
    · have hc : (j : ℝ) + 1 ≤ (n : ℝ) := by exact_mod_cast hlt
      rcases hd with h | h <;> subst h <;>
        nlinarith [sq_nonneg ((n : ℝ) - (j : ℝ) - 1)]
    · have hc : (n : ℝ) + 1 ≤ (j : ℝ) := by exact_mod_cast hgt
      rcases hd with h | h <;> subst h <;>
        nlinarith [sq_nonneg ((j : ℝ) - (n : ℝ) - 1)]

/-- Power comparison used for the neighbour voltages: if `v² ≤ 2.5 w²` then
`v ^ 1.5 ≤ 2.5 * w ^ 1.5`. -/
theorem rpow_15_le_of_sq (v w : ℝ) (h0w : 0 < w) (hwv : w ≤ v)
    (hsq : v ^ 2 ≤ 2.5 * w ^ 2) : v ^ (1.5 : ℝ) ≤ 2.5 * w ^ (1.5 : ℝ) := by
  have h0v : 0 < v := lt_of_lt_of_le h0w hwv
  have hr1 : 1 ≤ v / w := (one_le_div h0w).mpr hwv
  have h15 : (v / w) ^ (1.5 : ℝ) ≤ (v / w) ^ ((2 : ℕ) : ℝ) :=
    Real.rpow_le_rpow_of_exponent_le hr1 (by norm_num)
  rw [Real.rpow_natCast] at h15
  have hsq' : (v / w) ^ 2 ≤ 2.5 := by
    rw [div_pow, div_le_iff₀ (by positivity)]
    linarith
  have hdiv : (v / w) ^ (1.5 : ℝ) = v ^ (1.5 : ℝ) / w ^ (1.5 : ℝ) :=
    Real.div_rpow h0v.le h0w.le _
  have hwp : 0 < w ^ (1.5 : ℝ) := Real.rpow_pos_of_pos h0w _
  rw [hdiv] at h15
  rw [div_le_iff₀ hwp] at h15
  nlinarith [Real.rpow_nonneg h0w.le (1.5 : ℝ)]

end FrankHertz

/-! ## Claim theorems -/

/-- C1: For every wavelength `lambda > 0` and angle `theta`, the Compton
readout computes `shift = LAMBDA_C * (1 - cos theta_rad)`,
`lambda_prime = lambda + shift`, `E_inc = HC / lambda`, and electron kinetic
energy `HC / lambda - HC / lambda_prime`; and at 71 pm / 45 degrees the
numeric readouts are `shift ≈ 0.711 pm`, `lambda_prime ≈ 71.711 pm`,
`E_inc ≈ 17.46 keV`, `E_scat ≈ 17.29 keV`, `K_e ≈ 0.17 keV`, within the
stated rounding tolerances. -/
theorem compton_readout_scenario (lambda theta : ℝ) (hl : 0 < lambda) :
    ((Compton.updatePhysics lambda theta).shift
        = Compton.LAMBDA_C * (1 - Real.cos (Compton.toRad theta))
      ∧ (Compton.updatePhysics lambda theta).lambdaPrime
        = lambda + (Compton.updatePhysics lambda theta).shift
      ∧ (Compton.updatePhysics lambda theta).eInc = Compton.HC / lambda
      ∧ (Compton.updatePhysics lambda theta).kElectron
        = Compton.HC / lambda
            - Compton.HC / (Compton.updatePhysics lambda theta).lambdaPrime)
    ∧ (|(Compton.updatePhysics 71 45).shift - 0.711| < 0.001
      ∧ |(Compton.updatePhysics 71 45).lambdaPrime - 71.711| < 0.001
      ∧ |(Compton.updatePhysics 71 45).eInc - 17.46| < 0.01
      ∧ |(Compton.updatePhysics 71 45).eScat - 17.29| < 0.01
      ∧ |(Compton.updatePhysics 71 45).kElectron - 0.17| < 0.005) := by
  have h45 : Compton.toRad 45 = Real.pi / 4 := by unfold Compton.toRad; ring
  have hcos : Real.cos (Compton.toRad 45) = Real.sqrt 2 / 2 := by
    rw [h45, Real.cos_pi_div_four]
  have hshift : (Compton.updatePhysics 71 45).shift
      = 2.43 * (1 - Real.sqrt 2 / 2) := by
    simp only [Compton.updatePhysics, Compton.LAMBDA_C, hcos]
  have hlp : (Compton.updatePhysics 71 45).lambdaPrime
      = 71 + 2.43 * (1 - Real.sqrt 2 / 2) := by
    simp only [Compton.updatePhysics, Compton.LAMBDA_C, hcos]
  have heinc : (Compton.updatePhysics 71 45).eInc = 1240 / 71 := by
    simp only [Compton.updatePhysics, Compton.HC]
  have hescat : (Compton.updatePhysics 71 45).eScat
      = 1240 / (71 + 2.43 * (1 - Real.sqrt 2 / 2)) := by
    simp only [Compton.updatePhysics, Compton.HC, Compton.LAMBDA_C, hcos]
  have hke : (Compton.updatePhysics 71 45).kElectron
      = 1240 / 71 - 1240 / (71 + 2.43 * (1 - Real.sqrt 2 / 2)) := by
    simp only [Compton.updatePhysics, Compton.HC, Compton.LAMBDA_C, hcos]
  obtain ⟨hs1, hs2⟩ := sqrt2_bounds
  have hLpos : (0:ℝ) < 71 + 2.43 * (1 - Real.sqrt 2 / 2) := by nlinarith
  have hesc_lo : 17.2913 < 1240 / (71 + 2.43 * (1 - Real.sqrt 2 / 2)) := by
    rw [lt_div_iff₀ hLpos]; nlinarith
  have hesc_hi : 1240 / (71 + 2.43 * (1 - Real.sqrt 2 / 2)) < 17.2915 := by
    rw [div_lt_iff₀ hLpos]; nlinarith
  refine ⟨⟨rfl, rfl, rfl, rfl⟩, ?_, ?_, ?_, ?_, ?_⟩
  · rw [hshift, abs_lt]; constructor <;> nlinarith
  · rw [hlp, abs_lt]; constructor <;> nlinarith
  · rw [heinc, abs_lt]; constructor <;> norm_num
  · rw [hescat, abs_lt]; constructor <;> nlinarith
  · rw [hke, abs_lt]; constructor <;> nlinarith

/-- Witness for C1 at the concrete scenario input. -/
theorem compton_readout_scenario_witness :
    (0:ℝ) < 71 ∧ |(Compton.updatePhysics 71 45).kElectron - 0.17| < 0.005 :=
  ⟨by norm_num, (compton_readout_scenario 71 45 (by norm_num)).2.2.2.2.2⟩

namespace Photoelectric

/-- C2: For every wavelength and work function with
`HC / wavelength ≤ workFunction`, `spawnElectron` is a no-op on the electron
list (and stays a no-op over any number of spawn attempts); the photon
energy of 700 nm light is below the copper work function 4.70 eV. -/
theorem spawn_below_threshold_noop (lambda workFunction : ℝ)
    (hl : 0 < lambda) (h : HC / lambda ≤ workFunction) :
    (∀ x y na r1 r2 es, spawnElectron lambda workFunction x y na r1 r2 es = es)
    ∧ (∀ attempts es, spawnMany lambda workFunction attempts es = es)
    ∧ HC / 700 ≤ copper_phi := by
  have h1 : ∀ x y na r1 r2 es,
      spawnElectron lambda workFunction x y na r1 r2 es = es := by
    intro x y na r1 r2 es
    unfold spawnElectron
    rw [if_pos h]
  refine ⟨h1, ?_, by norm_num [HC, copper_phi]⟩
  intro attempts
  induction attempts with
  | nil => intro es; rfl
  | cons a t ih =>
      intro es
      show spawnMany lambda workFunction (a :: t) es = es
      unfold spawnMany
      rw [List.foldl_cons, h1]
      exact ih es

/-- Witness for C2: a spawn attempt with 700 nm light on copper adds no
electron. -/
theorem spawn_below_threshold_noop_witness :
    spawnElectron 700 copper_phi 360 250 3.14 0.3 0.7 [] = [] :=
  (spawn_below_threshold_noop 700 copper_phi (by norm_num)
    (by norm_num [HC, copper_phi])).1 360 250 3.14 0.3 0.7 []

end Photoelectric

/-- C3: One aggregation step prunes the hit history to timestamps strictly
newer than `timestamp - 500`, computes the instantaneous rate
`count * 0.2 * (1000 / 500)` and smooths with
`0.9 * old + 0.1 * instantaneous`; every retained event lies inside the
window; once the window has fully elapsed with no further events the step
returns an empty history and `0.9 * old`, and with no events at all the
ammeter decays geometrically (`0.9 ^ k`) toward 0. -/
theorem ammeter_window_smoothing (timestamp : ℝ) (hist : List ℝ) (am : ℝ) :
    (Photoelectric.calculateRealCurrent timestamp hist am
        = (hist.filter (fun t => decide (timestamp - t < 500)),
           am * 0.9
             + ((hist.filter (fun t => decide (timestamp - t < 500))).length : ℝ)
                 * 0.2 * (1000 / 500) * 0.1))
    ∧ (∀ t ∈ (Photoelectric.calculateRealCurrent timestamp hist am).1,
        timestamp - 500 < t)
    ∧ ((∀ t ∈ hist, t ≤ timestamp - 500) →
        Photoelectric.calculateRealCurrent timestamp hist am = ([], am * 0.9))
    ∧ (∀ ts : List ℝ,
        Photoelectric.aggregatorSteps ts [] am = ([], 0.9 ^ ts.length * am)) := by
  refine ⟨rfl, ?_, ?_, ?_⟩
  · intro t ht
    unfold Photoelectric.calculateRealCurrent at ht
    simp only [List.mem_filter, decide_eq_true_eq] at ht
    linarith [ht.2]
  · intro hall
    have hf : hist.filter (fun t => decide (timestamp - t < 500)) = [] := by
      rw [List.filter_eq_nil_iff]
      intro a ha
      simp only [decide_eq_true_eq, not_lt]
      have := hall a ha
      linarith
    simp only [Photoelectric.calculateRealCurrent]
    rw [hf]
    norm_num
  · intro ts
    induction ts generalizing am with
    | nil => simp [Photoelectric.aggregatorSteps]
    | cons t ts ih =>
        unfold Photoelectric.aggregatorSteps at ih ⊢
        rw [List.foldl_cons]
        have hstep : Photoelectric.calculateRealCurrent t [] am = ([], am * 0.9) := by
          unfold Photoelectric.calculateRealCurrent
          norm_num
        rw [hstep]
        rw [ih (am * 0.9)]
        have hpow : (0.9:ℝ) ^ (t :: ts).length * am = 0.9 ^ ts.length * (am * 0.9) := by
          rw [List.length_cons, pow_succ]; ring
        rw [hpow]

/-- Witness for C3: a step whose whole history has aged out of the window
clears it and decays the ammeter by 0.9. -/
theorem ammeter_window_smoothing_witness :
    Photoelectric.calculateRealCurrent 1000 [100, 200] 2 = ([], 2 * 0.9) :=
  (ammeter_window_smoothing 1000 [100, 200] 2).2.2.1
    (by intro t ht; fin_cases ht <;> norm_num)

namespace FrankHertz

/-- C4 (amended): At 180 °C, for every dip order `1 ≤ n ≤ 14` — so that the
dip position `n * 4.9 + 2` is covered by the dip-summation loop, which caps
at `k < 15` — the computed current at `n * 4.9 + 2` volts is a strict local
minimum relative to the voltages one volt to either side. -/
theorem dip_local_minimum (n : ℕ) (h1 : 1 ≤ n) (h2 : n ≤ 14) :
    calculateCurrent 180 ((n : ℝ) * 4.9 + 2)
        < calculateCurrent 180 ((n : ℝ) * 4.9 + 2 - 1)
    ∧ calculateCurrent 180 ((n : ℝ) * 4.9 + 2)
        < calculateCurrent 180 ((n : ℝ) * 4.9 + 2 + 1) := by
  have hnR : (1 : ℝ) ≤ (n : ℝ) := by exact_mod_cast h1
  have hv0 : (0 : ℝ) ≤ (n : ℝ) * 4.9 + 2 := by linarith
  have hvp : (0 : ℝ) < (n : ℝ) * 4.9 + 2 := by linarith
  have hw0 : (0 : ℝ) < (n : ℝ) * 4.9 + 1 := by linarith
  have hu0 : (0 : ℝ) < (n : ℝ) * 4.9 + 3 := by linarith
  have weq : (n : ℝ) * 4.9 + 2 - 1 = (n : ℝ) * 4.9 + 1 := by ring
  have ueq : (n : ℝ) * 4.9 + 2 + 1 = (n : ℝ) * 4.9 + 3 := by ring
  rw [weq, ueq, calculateCurrent_180 _ hv0, calculateCurrent_180 _ hw0.le,
      calculateCurrent_180 _ hu0.le]
  have hmv : 1 ≤ modulationFrom ((n : ℝ) * 4.9 + 2) 1 := modFrom_ge_one n h1 h2
  have hmw : modulationFrom ((n : ℝ) * 4.9 + 1) 1 ≤ 3 / 5 + 13 * (1 / 1024) :=
    modFrom_near_le n h1 h2 1 (Or.inl rfl)
  have hmu : modulationFrom ((n : ℝ) * 4.9 + 3) 1 ≤ 3 / 5 + 13 * (1 / 1024) :=
    modFrom_near_le n h1 h2 3 (Or.inr rfl)
  have hdv : max 0.1 (1 - 0.8 * 1 * modulationFrom ((n : ℝ) * 4.9 + 2) 1) ≤ 0.2 :=
    max_le (by norm_num) (by linarith)
  have hdw : (16315 / 32000 : ℝ)
      ≤ max 0.1 (1 - 0.8 * 1 * modulationFrom ((n : ℝ) * 4.9 + 1) 1) :=
    le_trans (by linarith) (le_max_right _ _)
  have hdu : (16315 / 32000 : ℝ)
      ≤ max 0.1 (1 - 0.8 * 1 * modulationFrom ((n : ℝ) * 4.9 + 3) 1) :=
    le_trans (by linarith) (le_max_right _ _)
  have hv15 : (0 : ℝ) < ((n : ℝ) * 4.9 + 2) ^ (1.5 : ℝ) :=
    Real.rpow_pos_of_pos hvp _
  have hw15 : (0 : ℝ) < ((n : ℝ) * 4.9 + 1) ^ (1.5 : ℝ) :=
    Real.rpow_pos_of_pos hw0 _
  have hu15 : (0 : ℝ) < ((n : ℝ) * 4.9 + 3) ^ (1.5 : ℝ) :=
    Real.rpow_pos_of_pos hu0 _
  have hsq : ((n : ℝ) * 4.9 + 2) ^ 2 ≤ 2.5 * ((n : ℝ) * 4.9 + 1) ^ 2 := by
    nlinarith
  have hrat := rpow_15_le_of_sq ((n : ℝ) * 4.9 + 2) ((n : ℝ) * 4.9 + 1)
    hw0 (by linarith) hsq
  have hvu15 : ((n : ℝ) * 4.9 + 2) ^ (1.5 : ℝ) ≤ ((n : ℝ) * 4.9 + 3) ^ (1.5 : ℝ) :=
    Real.rpow_le_rpow hv0 (by linarith) (by norm_num)
  constructor
  · calc ((n : ℝ) * 4.9 + 2) ^ (1.5 : ℝ) * 0.2 * 0.8
          * max 0.1 (1 - 0.8 * 1 * modulationFrom ((n : ℝ) * 4.9 + 2) 1)
        ≤ ((n : ℝ) * 4.9 + 2) ^ (1.5 : ℝ) * 0.2 * 0.8 * 0.2 :=
          mul_le_mul_of_nonneg_left hdv (by positivity)
      _ = 0.032 * ((n : ℝ) * 4.9 + 2) ^ (1.5 : ℝ) := by ring
      _ ≤ 0.032 * (2.5 * ((n : ℝ) * 4.9 + 1) ^ (1.5 : ℝ)) := by linarith
      _ = 0.08 * ((n : ℝ) * 4.9 + 1) ^ (1.5 : ℝ) := by ring
      _ < ((n : ℝ) * 4.9 + 1) ^ (1.5 : ℝ) * 0.2 * 0.8 * (16315 / 32000) := by
          linarith
      _ ≤ ((n : ℝ) * 4.9 + 1) ^ (1.5 : ℝ) * 0.2 * 0.8
            * max 0.1 (1 - 0.8 * 1 * modulationFrom ((n : ℝ) * 4.9 + 1) 1) :=
          mul_le_mul_of_nonneg_left hdw (by positivity)
  · calc ((n : ℝ) * 4.9 + 2) ^ (1.5 : ℝ) * 0.2 * 0.8
          * max 0.1 (1 - 0.8 * 1 * modulationFrom ((n : ℝ) * 4.9 + 2) 1)
        ≤ ((n : ℝ) * 4.9 + 2) ^ (1.5 : ℝ) * 0.2 * 0.8 * 0.2 :=
          mul_le_mul_of_nonneg_left hdv (by positivity)
      _ = 0.032 * ((n : ℝ) * 4.9 + 2) ^ (1.5 : ℝ) := by ring
      _ ≤ 0.032 * ((n : ℝ) * 4.9 + 3) ^ (1.5 : ℝ) := by linarith
      _ < ((n : ℝ) * 4.9 + 3) ^ (1.5 : ℝ) * 0.2 * 0.8 * (16315 / 32000) := by
          linarith
      _ ≤ ((n : ℝ) * 4.9 + 3) ^ (1.5 : ℝ) * 0.2 * 0.8
            * max 0.1 (1 - 0.8 * 1 * modulationFrom ((n : ℝ) * 4.9 + 3) 1) :=
          mul_le_mul_of_nonneg_left hdu (by positivity)

/-- Witness for C4 (amended) at dip order `n = 1` (6.9 V). -/
theorem dip_local_minimum_witness :
    calculateCurrent 180 (((1 : ℕ) : ℝ) * 4.9 + 2)
        < calculateCurrent 180 (((1 : ℕ) : ℝ) * 4.9 + 2 - 1)
    ∧ calculateCurrent 180 (((1 : ℕ) : ℝ) * 4.9 + 2)
        < calculateCurrent 180 (((1 : ℕ) : ℝ) * 4.9 + 2 + 1) :=
  dip_local_minimum 1 (by norm_num) (by norm_num)

/-- C4 counterexample: the dip-summation loop caps at `k < 15`, so the dip of
order `n = 15` (voltage `15 * 4.9 + 2 = 75.5`, still inside the 0–80 V scan
range driven by the auto-scan) is absent: the current at 75.5 V exceeds the
current at 74.5 V, contradicting the claimed local minimum for every `n` in
range. -/
theorem dip_absent_at_order_15 :
    calculateCurrent 180 74.5 < calculateCurrent 180 75.5 := by
  rw [calculateCurrent_180 74.5 (by norm_num), calculateCurrent_180 75.5 (by norm_num)]
  have hm755 : modulationFrom 75.5 1 ≤ 14 * (1 / 1024) := by
    apply le_trans (modFrom_le_sum _ 1)
    have hterm : ∀ j ∈ Finset.Ico 1 15, gaussTerm 75.5 j ≤ 1 / 1024 := by
      intro j hj
      apply gaussTerm_le_far
      simp only [EXCITATION_ENERGY, CONTACT_POTENTIAL]
      obtain ⟨hj1, hj15⟩ := Finset.mem_Ico.mp hj
      have hjr : (j : ℝ) ≤ 14 := by exact_mod_cast (by omega : j ≤ 14)
      have hjr1 : (1 : ℝ) ≤ (j : ℝ) := by exact_mod_cast hj1
      nlinarith
    calc ∑ j ∈ Finset.Ico 1 15, gaussTerm 75.5 j
        ≤ (Finset.Ico 1 15).card • (1 / 1024 : ℝ) :=
          Finset.sum_le_card_nsmul _ _ _ hterm
      _ = 14 * (1 / 1024) := by
          rw [Nat.card_Ico, nsmul_eq_mul]; norm_num
  have hm745 : 0 ≤ modulationFrom 74.5 1 := modFrom_nonneg _ _
  have hd745 : max 0.1 (1 - 0.8 * 1 * modulationFrom 74.5 1) ≤ 1 :=
    max_le (by norm_num) (by linarith)
  have hd755 : (633 / 640 : ℝ)
      ≤ max 0.1 (1 - 0.8 * 1 * modulationFrom 75.5 1) :=
    le_trans (by linarith) (le_max_right _ _)
  have h745 : (0 : ℝ) < (74.5 : ℝ) := by norm_num
  have h74515 : (0 : ℝ) < (74.5 : ℝ) ^ (1.5 : ℝ) := Real.rpow_pos_of_pos h745 _
  have hr1 : (1 : ℝ) ≤ 75.5 / 74.5 := by norm_num
  have hrat : (75.5 / 74.5 : ℝ) ^ (1 : ℝ) ≤ (75.5 / 74.5 : ℝ) ^ (1.5 : ℝ) :=
    Real.rpow_le_rpow_of_exponent_le hr1 (by norm_num)
  rw [Real.rpow_one] at hrat
  rw [Real.div_rpow (by norm_num : (0:ℝ) ≤ 75.5) (by norm_num : (0:ℝ) ≤ 74.5)]
    at hrat
  rw [le_div_iff₀ h74515] at hrat
  have hc : (0.16 : ℝ) < 0.16 * (633 / 640) * (75.5 / 74.5) := by norm_num
  calc (74.5 : ℝ) ^ (1.5 : ℝ) * 0.2 * 0.8
        * max 0.1 (1 - 0.8 * 1 * modulationFrom 74.5 1)
      ≤ (74.5 : ℝ) ^ (1.5 : ℝ) * 0.2 * 0.8 * 1 :=
        mul_le_mul_of_nonneg_left hd745 (by positivity)
    _ = 0.16 * (74.5 : ℝ) ^ (1.5 : ℝ) := by ring
    _ < 0.16 * (633 / 640) * (75.5 / 74.5 * (74.5 : ℝ) ^ (1.5 : ℝ)) := by
        nlinarith
    _ ≤ 0.16 * (633 / 640) * (75.5 : ℝ) ^ (1.5 : ℝ) := by
        apply mul_le_mul_of_nonneg_left hrat (by norm_num)
    _ = (75.5 : ℝ) ^ (1.5 : ℝ) * 0.2 * 0.8 * (633 / 640) := by ring
    _ ≤ (75.5 : ℝ) ^ (1.5 : ℝ) * 0.2 * 0.8
          * max 0.1 (1 - 0.8 * 1 * modulationFrom 75.5 1) :=
        mul_le_mul_of_nonneg_left hd755 (by positivity)

end FrankHertz

/-- C5: For every oil drop of positive radius, `OilDrop.update` recomputes the
velocity from scratch as steady-state terminal velocity: before the jitter
term, the vertical velocity is `(Fg - Fb + Fe) / (6 pi viscosity radius)` and
the horizontal velocity is 0; the result does not depend on the previous
velocity, and the position advances by the new velocity times `dt`. -/
theorem oil_drop_terminal_velocity (d : Millikan.OilDrop) (voltage dt r1 r2 : ℝ)
    (hr : 0 < d.radius) :
    (let volume := (4 / 3) * Real.pi * d.radius ^ 3
     let Fg := volume * Millikan.rho_oil * Millikan.g
     let Fb := volume * Millikan.rho_air * Millikan.g
     let Fe := d.q * (voltage / Millikan.plateDistance)
     let dragCoeff := 6 * Real.pi * Millikan.viscosity * d.radius
     let jitter := 1e-6 / d.radius * 2e-6
     let vxNew := 0 + (r1 - 0.5) * jitter
     let vyNew := (Fg - Fb + Fe) / dragCoeff + (r2 - 0.5) * jitter
     Millikan.OilDrop.update d voltage dt r1 r2
        = some { d with vx := vxNew, vy := vyNew,
                        x := d.x + vxNew * dt, y := d.y + vyNew * dt })
    ∧ (∀ w1 w2 : ℝ,
        Millikan.OilDrop.update { d with vx := w1, vy := w2 } voltage dt r1 r2
          = Millikan.OilDrop.update d voltage dt r1 r2) := by
  constructor
  · exact Millikan.OilDrop.update_of_pos_radius d voltage dt r1 r2 hr
  · intro w1 w2
    rfl

/-- Witness for C5: the update of a drop is independent of its previous
velocity at a concrete input. -/
theorem oil_drop_terminal_velocity_witness :
    Millikan.OilDrop.update ⟨1e-6, 0, 0, 7, -9, 0⟩ 100 0.016 0.5 0.5
      = Millikan.OilDrop.update ⟨1e-6, 0, 0, 0, 0, 0⟩ 100 0.016 0.5 0.5 :=
  (oil_drop_terminal_velocity ⟨1e-6, 0, 0, 0, 0, 0⟩ 100 0.016 0.5 0.5
    (by norm_num)).2 7 (-9)

/-- C7: After any update, particle state stays finite.  For oil drops of
positive radius the `Option`-valued update always succeeds (no division by
zero) and preserves the radius; for Franck–Hertz electrons under the module
invariants the update always succeeds and returns an electron that is either
inactive or has nonnegative energy, with nonnegative forward speed; the
photoelectric electron motion is plain finite arithmetic on its components. -/
theorem particle_update_finite :
    (∀ (d : Millikan.OilDrop) (voltage dt r1 r2 : ℝ), 0 < d.radius →
        ∃ d', Millikan.OilDrop.update d voltage dt r1 r2 = some d'
          ∧ d'.radius = d.radius)
    ∧ (∀ (el : FrankHertz.Electron) (W vAcc vRet temperature r : ℝ),
        100 < W → 0 ≤ vAcc → 0 ≤ el.energy → 0 ≤ el.vx →
        ∃ el', FrankHertz.Electron.update el W vAcc vRet temperature r = some el'
          ∧ (0 ≤ el'.energy ∨ el'.active = false) ∧ 0 ≤ el'.vx)
    ∧ (∀ (voltage W : ℝ) (el : Photoelectric.Electron),
        (Photoelectric.updateElectron voltage W el).1.x
            = el.x + (el.vx - voltage * 0.05)
        ∧ (Photoelectric.updateElectron voltage W el).1.y = el.y + el.vy
        ∧ (Photoelectric.updateElectron voltage W el).1.vx
            = el.vx - voltage * 0.05
        ∧ (Photoelectric.updateElectron voltage W el).1.vy = el.vy) := by
  refine ⟨?_, ?_, ?_⟩
  · intro d voltage dt r1 r2 hr
    exact ⟨_, Millikan.OilDrop.update_of_pos_radius d voltage dt r1 r2 hr, rfl⟩
  · intro el W vAcc vRet temperature r hW hvA hE hvx
    exact FrankHertz.electron_update_finite el W vAcc vRet temperature r hW hvA hE hvx
  · intro voltage W el
    exact ⟨rfl, rfl, rfl, rfl⟩

/-- Witness for C7 at concrete particles. -/
theorem particle_update_finite_witness :
    (∃ d', Millikan.OilDrop.update ⟨1e-6, 0, 0, 0, 0, Millikan.e⟩ 500 0.016 0.25 0.75
        = some d' ∧ d'.radius = 1e-6)
    ∧ (∃ el', FrankHertz.Electron.update ⟨40, 100, 1, 0, true⟩ 800 30 1.5 180 0.5
        = some el' ∧ (0 ≤ el'.energy ∨ el'.active = false) ∧ 0 ≤ el'.vx) :=
  ⟨particle_update_finite.1 ⟨1e-6, 0, 0, 0, 0, Millikan.e⟩ 500 0.016 0.25 0.75
      (by norm_num),
   particle_update_finite.2.1 ⟨40, 100, 1, 0, true⟩ 800 30 1.5 180 0.5
      (by norm_num) (by norm_num) (by norm_num) (by norm_num)⟩

/-- C8: For every intensity `I > 0`, one frame performs exactly
`floor(0.03 * I)` guaranteed spawn attempts plus at most one probabilistic
extra, triggered exactly when the random draw is below the fractional
remainder; the attempt count is bounded by `floor(0.03 * I) + 1` and the
guaranteed count plus the remainder equals `0.03 * I` (so the expected
attempt rate is linear in the intensity), with the remainder in `[0, 1)`. -/
theorem spawn_rate_limited (I r : ℝ) (hI : 0 < I) :
    Photoelectric.spawnAttempts I r
        = ⌊0.03 * I⌋ + (if r < 0.03 * I - (⌊0.03 * I⌋ : ℝ) then 1 else 0)
    ∧ Photoelectric.spawnAttempts I r ≤ ⌊0.03 * I⌋ + 1
    ∧ ⌊0.03 * I⌋ ≤ Photoelectric.spawnAttempts I r
    ∧ (⌊0.03 * I⌋ : ℝ) + (0.03 * I - (⌊0.03 * I⌋ : ℝ)) = 0.03 * I
    ∧ 0 ≤ 0.03 * I - (⌊0.03 * I⌋ : ℝ)
    ∧ 0.03 * I - (⌊0.03 * I⌋ : ℝ) < 1 := by
  have hcomm : I * 0.03 = 0.03 * I := by ring
  unfold Photoelectric.spawnAttempts Photoelectric.guaranteedCount
    Photoelectric.spawnRate
  rw [if_pos hI, hcomm]
  refine ⟨rfl, ?_, ?_, by ring, ?_, ?_⟩
  · split_ifs <;> omega
  · split_ifs <;> omega
  · have := Int.fract_nonneg (0.03 * I)
    unfold Int.fract at this
    linarith
  · have := Int.fract_lt_one (0.03 * I)
    unfold Int.fract at this
    linarith

/-- Witness for C8 at intensity 50. -/
theorem spawn_rate_limited_witness :
    Photoelectric.spawnAttempts 50 0.5 ≤ ⌊(0.03 : ℝ) * 50⌋ + 1 :=
  (spawn_rate_limited 50 0.5 (by norm_num)).2.1

/-- C9 counterexample: the oil-drop update has no zero-denominator guard.
With radius 0 (and a charged drop under voltage, so the driving force is
nonzero) the division by the Stokes drag coefficient
`6 pi viscosity radius = 0` yields a non-finite value (`none`), not a zero
velocity: the claimed fallback to zero does not exist in the code. -/
theorem oil_drop_zero_radius_nonfinite :
    Millikan.OilDrop.update ⟨0, 0, 0, 0, 0, Millikan.e⟩ 500 0.016 0.5 0.5
      = none := by
  simp [Millikan.OilDrop.update, jsDiv]

/-- C9 (amended): the division by the drag coefficient is unguarded, but for
every drop of positive radius it is well defined, and every drop produced by
the constructor has radius at least 0.5 micrometre, hence positive — so no
non-finite value ever propagates for constructor-produced drops. -/
theorem oil_drop_positive_radius_finite (d : Millikan.OilDrop)
    (voltage dt r1 r2 : ℝ) (hr : 0 < d.radius) :
    (∃ d', Millikan.OilDrop.update d voltage dt r1 r2 = some d')
    ∧ ∀ width height rr rx ry rvx rq : ℝ, 0 ≤ rr →
        0 < (Millikan.OilDrop.spawn width height rr rx ry rvx rq).radius := by
  constructor
  · exact ⟨_, Millikan.OilDrop.update_of_pos_radius d voltage dt r1 r2 hr⟩
  · intro width height rr rx ry rvx rq hrr
    simp only [Millikan.OilDrop.spawn]
    nlinarith

/-- Witness for C9 (amended) at a concrete drop. -/
theorem oil_drop_positive_radius_finite_witness :
    ∃ d', Millikan.OilDrop.update ⟨1e-6, 0.001, 0.001, 0, 0, -Millikan.e⟩
        2000 0.02 0.1 0.9 = some d' :=
  (oil_drop_positive_radius_finite ⟨1e-6, 0.001, 0.001, 0, 0, -Millikan.e⟩
    2000 0.02 0.1 0.9 (by norm_num)).1

/-- C10: For every parse result (with `NaN` modelled as `none` and stored as
0), the stored voltage lies in the clamp bounds `[-2000, 2000]`, and feeding
the stored value back through the update (as the re-displayed input) is
idempotent. -/
theorem voltage_clamp_idempotent :
    (∀ input : Option ℤ,
        -2000 ≤ Millikan.updateVoltageFromInput input
        ∧ Millikan.updateVoltageFromInput input ≤ 2000
        ∧ Millikan.updateVoltageFromInput
            (some (Millikan.updateVoltageFromInput input))
            = Millikan.updateVoltageFromInput input)
    ∧ Millikan.updateVoltageFromInput none = 0 := by
  constructor
  · intro input
    rcases input with _ | v
    · norm_num [Millikan.updateVoltageFromInput]
    · unfold Millikan.updateVoltageFromInput
      dsimp only
      split_ifs <;> omega
  · rfl
